import Mathlib

/-!
Shallow embedding of the `datastore` repository core: the value universe,
the serializer protocol and `Stack` composition, the `SerializerShimDatastore`
(`src/datastore/core/serialize.py`), and the hierarchical `Key` type.

Python values are modelled by the inductive `PyVal`; the Python `None`
object is `PyVal.none`.  Fallible construction is modelled with `Except`.
-/

namespace Datastore

/-- Dynamic Python values, as far as the serialization core observes them:
`None`, strings, integers and string-keyed dictionaries. -/
inductive PyVal where
  | none : PyVal
  | str (s : String) : PyVal
  | int (n : Int) : PyVal
  | dict (entries : List (String × PyVal)) : PyVal
deriving Repr

mutual

/-- Decidable equality on `PyVal` (Python `==` on these values). -/
def PyVal.decEq : (a b : PyVal) → Decidable (a = b)
  | PyVal.none, PyVal.none => isTrue rfl
  | PyVal.str a, PyVal.str b =>
    if h : a = b then isTrue (by rw [h]) else isFalse (by simp [h])
  | PyVal.int a, PyVal.int b =>
    if h : a = b then isTrue (by rw [h]) else isFalse (by simp [h])
  | PyVal.dict a, PyVal.dict b =>
    match PyVal.decEqEntries a b with
    | isTrue h => isTrue (by rw [h])
    | isFalse h => isFalse (by simp [h])
  | PyVal.none, PyVal.str _ => isFalse (by simp)
  | PyVal.none, PyVal.int _ => isFalse (by simp)
  | PyVal.none, PyVal.dict _ => isFalse (by simp)
  | PyVal.str _, PyVal.none => isFalse (by simp)
  | PyVal.str _, PyVal.int _ => isFalse (by simp)
  | PyVal.str _, PyVal.dict _ => isFalse (by simp)
  | PyVal.int _, PyVal.none => isFalse (by simp)
  | PyVal.int _, PyVal.str _ => isFalse (by simp)
  | PyVal.int _, PyVal.dict _ => isFalse (by simp)
  | PyVal.dict _, PyVal.none => isFalse (by simp)
  | PyVal.dict _, PyVal.str _ => isFalse (by simp)
  | PyVal.dict _, PyVal.int _ => isFalse (by simp)

/-- Decidable equality on dictionary entry lists. -/
def PyVal.decEqEntries : (a b : List (String × PyVal)) → Decidable (a = b)
  | [], [] => isTrue rfl
  | [], _ :: _ => isFalse (by simp)
  | _ :: _, [] => isFalse (by simp)
  | (k1, v1) :: r1, (k2, v2) :: r2 =>
    if hk : k1 = k2 then
      match PyVal.decEq v1 v2 with
      | isTrue hv =>
        match PyVal.decEqEntries r1 r2 with
        | isTrue hr => isTrue (by rw [hk, hv, hr])
        | isFalse hr => isFalse (by simp [hr])
      | isFalse hv => isFalse (by simp [hv])
    else isFalse (by simp [hk])

end

instance : DecidableEq PyVal := PyVal.decEq

/-- Whether a value is a Python string.  The `Serializer` protocol docstring
requires serialized data to be a string. -/
def PyVal.isStr : PyVal → Bool
  | PyVal.str _ => true
  | _ => false

/-- A serializer: an object responding to `loads` and `dumps`
(`serialize.py`, class `Serializer`). -/
structure Serializer where
  loads : PyVal → PyVal
  dumps : PyVal → PyVal

/-- `NonSerializer`: identity in both directions (`serialize.py`). -/
def NonSerializer : Serializer :=
  { loads := fun value => value, dumps := fun value => value }

/-- `Stack`: a list of serializers applied in sequence (`serialize.py`,
class `Stack`, which subclasses `list`). -/
abbrev Stack : Type := List Serializer

/-- `Stack.loads`: applies each member serializer's `loads` iterating the
stack in reversed order (`for serializer in reversed(self)`). -/
def Stack.loads (st : Stack) (value : PyVal) : PyVal :=
  List.foldl (fun v s => s.loads v) value (List.reverse st)

/-- `Stack.dumps`: applies each member serializer's `dumps` iterating the
stack in forward order (`for serializer in self`). -/
def Stack.dumps (st : Stack) (value : PyVal) : PyVal :=
  List.foldl (fun v s => s.dumps v) value st

/-- Splitting a character list at every slash, as Python's
`str.split('/')`: the empty string splits to one empty part, and each
slash starts a new part. -/
def splitSlash : List Char → List (List Char)
  | [] => [[]]
  | c :: cs =>
    if c = '/' then [] :: splitSlash cs
    else (c :: (splitSlash cs).headI) :: (splitSlash cs).tail

/-- Joining character-list parts with a slash separator, as Python's
`'/'.join`. -/
def joinSlash : List (List Char) → List Char
  | [] => []
  | [p] => p
  | p :: q :: ps => p ++ '/' :: joinSlash (q :: ps)

/-- Modelled from the spec: the `Key` class of `datastore.core.key` is not in
`src/`; per §3 a Key is an immutable canonical normalized slash-separated
string, equality being equality of that string. -/
structure Key where
  _string : String
deriving DecidableEq, Repr

/-- Modelled from the spec: `remove_duplicate_slashes` on character lists —
collapse duplicate separators and drop the trailing separator, keeping a
leading separator, i.e. `'/' + '/'.join(p for p in s.split('/') if p)`
(spec §3/§4.1 and its use in `test_key.py`). -/
def removeDuplicateSlashesChars (cs : List Char) : List Char :=
  '/' :: joinSlash (List.filter (fun p => p ≠ []) (splitSlash cs))

/-- Modelled from the spec: `Key.remove_duplicate_slashes` (referenced by
`test_key.py`), the normalization applied to every raw key string. -/
def Key.remove_duplicate_slashes (s : String) : String :=
  String.mk (removeDuplicateSlashesChars s.data)

/-- Modelled from the spec: constructing a `Key` from a raw string stores the
normalized canonical form (spec §4.1 `parse`). -/
def Key.parse (s : String) : Key :=
  { _string := Key.remove_duplicate_slashes s }

/-- The list of (nonempty) segments of a key's string. -/
def Key.segments (k : Key) : List (List Char) :=
  List.filter (fun p => p ≠ []) (splitSlash k._string.data)

/-- Modelled from the spec: `parent` fails (`InvalidOperation`, modelled as
`Option.none`) when the key has a single top-level segment; otherwise it is
the key formed by all segments but the last (spec §4.1). -/
def Key.parent (k : Key) : Option Key :=
  if k.segments.length ≤ 1 then Option.none
  else some { _string := String.mk ('/' :: joinSlash k.segments.dropLast) }

/-- Modelled from the spec: `child(name)` appends a child segment
(spec §4.1), i.e. `Key(str(self) + '/' + name)`. -/
def Key.child (k : Key) (name : String) : Key :=
  Key.parse (k._string ++ "/" ++ name)

/-- Modelled from the spec: `is_ancestor_of(other)` is true iff `other`'s
normalized string starts with this key's string plus a separator and the two
keys are not equal (spec §3). -/
def Key.is_ancestor_of (a b : Key) : Bool :=
  List.isPrefixOf (a._string.data ++ ['/']) b._string.data && a != b

/-- Modelled from the spec: `is_descendant_of` is the inverse relation of
`is_ancestor_of` (spec §3). -/
def Key.is_descendant_of (a b : Key) : Bool :=
  Key.is_ancestor_of b a

/-- A lazy result sequence (Python iterable/generator): either a concrete
backend result list, or a `deserialized_gen` layered over an inner
iterable.  Work is performed one element at a time by `Iterable.step`. -/
inductive Iterable where
  | list (xs : List PyVal) : Iterable
  | gen (loads : PyVal → PyVal) (inner : Iterable) : Iterable

/-- `deserialized_gen(serializer, iterable)` (`serialize.py`): a generator
that yields `serializer.loads(item)` for each item of `iterable`, one item
per advance. -/
def deserialized_gen (serializer : Serializer) (iterable : Iterable) : Iterable :=
  Iterable.gen serializer.loads iterable

/-- One advance of an iterable.  Returns the yielded element, the number of
`loads` invocations performed by this advance, and the rest of the iterable;
`Option.none` when the iterable is exhausted. -/
def Iterable.step : Iterable → Option (PyVal × Nat × Iterable)
  | Iterable.list [] => Option.none
  | Iterable.list (x :: xs) => some (x, 0, Iterable.list xs)
  | Iterable.gen f g =>
    match Iterable.step g with
    | Option.none => Option.none
    | some (x, c, g2) => some (f x, c + 1, Iterable.gen f g2)

/-- Consuming the first `m` elements of an iterable: the list of yielded
elements and the total number of `loads` invocations performed. -/
def Iterable.consume : Nat → Iterable → List PyVal × Nat
  | 0, _ => ([], 0)
  | m + 1, g =>
    match Iterable.step g with
    | Option.none => ([], 0)
    | some (x, c, g2) =>
      let r := Iterable.consume m g2
      (x :: r.1, c + r.2)

/-- Modelled from the spec: the `Cursor` class of `datastore.core.query` is
not in `src/`; per §6 a cursor exposes the lazy result sequence `_iterable`
together with passthrough metadata (the query object and e.g. a total count
supplied by the backend). -/
structure Cursor (Q M : Type) where
  _iterable : Iterable
  query : Q
  meta : M

/-- Modelled from the spec: the child datastore interface the shim consumes
(§4.3, §6): `get` returns the stored value or `None` for absence, and
`query` returns a cursor.  `Q` is the opaque query type, `M` the cursor
metadata type. -/
structure ChildDatastore (Q M : Type) where
  getOp : Key → PyVal
  queryOp : Q → Cursor Q M

/-- `SerializerShimDatastore` (`serialize.py`): wraps a child datastore and a
serializer. -/
structure SerializerShimDatastore (Q M : Type) where
  child_datastore : ChildDatastore Q M
  serializer : Serializer

/-- The constructor's serializer self-test value `{'value': repr(self)}`
(`serialize.py` line 119); `r` stands for the `repr(self)` string. -/
def selfTestValue (r : String) : PyVal :=
  PyVal.dict [("value", PyVal.str r)]

/-- The constructor's assertion message (`serialize.py` line 120). -/
def serializerErrorMsg : String :=
  "Serializer error: serialized value does not match original"

/-- `SerializerShimDatastore.__init__` (`serialize.py`): stores the child and
the serializer, then asserts that the serializer round-trips the self-test
value `{'value': repr(self)}`; the failed assertion is the construction-time
`SerializerConfigurationError` of the spec's taxonomy (§7). -/
def SerializerShimDatastore.init {Q M : Type} (datastore : ChildDatastore Q M)
    (serializer : Serializer) (r : String) :
    Except String (SerializerShimDatastore Q M) :=
  let test := selfTestValue r
  if serializer.loads (serializer.dumps test) = test then
    Except.ok { child_datastore := datastore, serializer := serializer }
  else
    Except.error serializerErrorMsg

/-- `SerializerShimDatastore.get` (`serialize.py`): fetch from the child and
return `serializer.loads(value)` if the value is not `None`, else `None`. -/
def SerializerShimDatastore.get {Q M : Type} (self : SerializerShimDatastore Q M)
    (key : Key) : PyVal :=
  let value := self.child_datastore.getOp key
  if value ≠ PyVal.none then self.serializer.loads value else PyVal.none

/-- `SerializerShimDatastore.put` (`serialize.py`): store
`serializer.dumps(value)` (or `None` unchanged) into the child; the child's
`put` overwrites the value under the key (§4.3). -/
def SerializerShimDatastore.put {Q M : Type} (self : SerializerShimDatastore Q M)
    (key : Key) (value : PyVal) : SerializerShimDatastore Q M :=
  let v := if value ≠ PyVal.none then self.serializer.dumps value else PyVal.none
  { self with
    child_datastore :=
      { self.child_datastore with
        getOp := fun k => if k = key then v else self.child_datastore.getOp k } }

/-- `SerializerShimDatastore.query` (`serialize.py`): run the query on the
child datastore, then replace the cursor's `_iterable` with the
deserializing generator chained onto it. -/
def SerializerShimDatastore.query {Q M : Type} (self : SerializerShimDatastore Q M)
    (q : Q) : Cursor Q M :=
  let cursor := self.child_datastore.queryOp q
  { cursor with _iterable := deserialized_gen self.serializer cursor._iterable }

/-- Whether an `Except` result is a success. -/
def exceptOk {ε α : Type} : Except ε α → Bool
  | Except.ok _ => true
  | Except.error _ => false

/-- A serializer that is the identity on strings and maps every non-string
value to the empty string: it round-trips every string value but no
dictionary. -/
def stringIdentitySerializer : Serializer :=
  { loads := fun value => value
    dumps := fun value =>
      match value with
      | PyVal.str s => PyVal.str s
      | _ => PyVal.str "" }

/-!  Helper lemmas. -/

lemma stack_loads_cons (s : Serializer) (st : Stack) (v : PyVal) :
    Stack.loads (s :: st) v = s.loads (Stack.loads st v) := by
  simp [Stack.loads, List.reverse_cons, List.foldl_append]

lemma stack_dumps_cons (s : Serializer) (st : Stack) (v : PyVal) :
    Stack.dumps (s :: st) v = Stack.dumps st (s.dumps v) := rfl

lemma stack_dumps_append (st : Stack) (s : Serializer) (v : PyVal) :
    Stack.dumps (st ++ [s]) v = s.dumps (Stack.dumps st v) := by
  simp [Stack.dumps, List.foldl_append]

lemma stack_roundtrip_aux (st : Stack) (v : PyVal)
    (h : ∀ s ∈ st, ∀ x, s.loads (s.dumps x) = x) :
    Stack.loads st (Stack.dumps st v) = v := by
  induction st generalizing v with
  | nil => rfl
  | cons s st ih =>
    rw [stack_dumps_cons, stack_loads_cons,
      ih (s.dumps v) (fun t ht x => h t (List.mem_cons_of_mem s ht) x),
      h s (List.mem_cons_self s st) v]

lemma consume_gen_list (f : PyVal → PyVal) (xs : List PyVal) (m : Nat) :
    Iterable.consume m (Iterable.gen f (Iterable.list xs))
      = (List.map f (List.take m xs), min m xs.length) := by
  induction m generalizing xs with
  | zero => simp [Iterable.consume]
  | succ m ih =>
    cases xs with
    | nil => simp [Iterable.consume, Iterable.step]
    | cons x xs =>
      simp [Iterable.consume, Iterable.step, ih]
      omega

lemma splitSlash_ne_nil (cs : List Char) : splitSlash cs ≠ [] := by
  cases cs with
  | nil => simp [splitSlash]
  | cons c cs =>
    simp only [splitSlash]
    split <;> simp

lemma splitSlash_append (xs ys : List Char) :
    splitSlash (xs ++ '/' :: ys) = splitSlash xs ++ splitSlash ys := by
  induction xs with
  | nil => simp [splitSlash]
  | cons c xs ih =>
    by_cases hc : c = '/'
    · simp [splitSlash, hc, ih]
    · rcases h : splitSlash xs with _ | ⟨p, ps⟩
      · exact absurd h (splitSlash_ne_nil xs)
      · simp [splitSlash, hc, ih, h]

lemma slash_not_mem_splitSlash (cs : List Char) :
    ∀ p ∈ splitSlash cs, '/' ∉ p := by
  induction cs with
  | nil =>
    intro p hp
    simp [splitSlash] at hp
    simp [hp]
  | cons c cs ih =>
    intro p hp
    by_cases hc : c = '/'
    · simp [splitSlash, hc] at hp
      rcases hp with rfl | hp
      · simp
      · exact ih p hp
    · rcases h : splitSlash cs with _ | ⟨q, qs⟩
      · exact absurd h (splitSlash_ne_nil cs)
      · simp [splitSlash, hc, h] at hp
        rcases hp with rfl | hp
        · intro hmem
          rcases List.mem_cons.mp hmem with heq | hmem2
          · exact hc heq.symm
          · exact ih q (by rw [h]; exact List.mem_cons_self q qs) hmem2
        · exact ih p (by rw [h]; exact List.mem_cons_of_mem q hp)

lemma splitSlash_slashFree (p : List Char) (h : '/' ∉ p) : splitSlash p = [p] := by
  induction p with
  | nil => rfl
  | cons c cs ih =>
    have hc : c ≠ '/' := fun hh => h (by rw [hh]; exact List.mem_cons_self _ _)
    have hcs : '/' ∉ cs := fun hh => h (List.mem_cons_of_mem c hh)
    simp [splitSlash, hc, ih hcs]

lemma splitSlash_joinSlash (ps : List (List Char)) (hne : ps ≠ [])
    (h1 : ∀ p ∈ ps, p ≠ []) (h2 : ∀ p ∈ ps, '/' ∉ p) :
    splitSlash (joinSlash ps) = ps := by
  induction ps with
  | nil => exact absurd rfl hne
  | cons p ps ih =>
    cases ps with
    | nil =>
      simp only [joinSlash]
      exact splitSlash_slashFree p (h2 p (List.mem_cons_self p []))
    | cons q qs =>
      have hj : joinSlash (p :: q :: qs) = p ++ '/' :: joinSlash (q :: qs) := rfl
      rw [hj, splitSlash_append,
        splitSlash_slashFree p (h2 p (List.mem_cons_self p (q :: qs))),
        ih (by simp) (fun r hr => h1 r (List.mem_cons_of_mem p hr))
          (fun r hr => h2 r (List.mem_cons_of_mem p hr))]
      rfl

lemma mem_filterSplit {cs : List Char} {r : List Char}
    (hr : r ∈ List.filter (fun p => p ≠ []) (splitSlash cs)) :
    r ≠ [] ∧ '/' ∉ r := by
  have h := List.mem_filter.mp hr
  exact ⟨by simpa using h.2, slash_not_mem_splitSlash cs r h.1⟩

lemma filter_splitSlash_normalize (cs : List Char) :
    List.filter (fun p => p ≠ []) (splitSlash (removeDuplicateSlashesChars cs))
      = List.filter (fun p => p ≠ []) (splitSlash cs) := by
  have hsplit : splitSlash (removeDuplicateSlashesChars cs)
      = [] :: splitSlash (joinSlash (List.filter (fun p => p ≠ []) (splitSlash cs))) := by
    simp [removeDuplicateSlashesChars, splitSlash]
  rw [hsplit]
  cases hp : List.filter (fun p => p ≠ []) (splitSlash cs) with
  | nil => simp [joinSlash, splitSlash]
  | cons p ps =>
    rw [splitSlash_joinSlash (p :: ps) (by simp)
      (fun r hr => (mem_filterSplit (hp ▸ hr)).1)
      (fun r hr => (mem_filterSplit (hp ▸ hr)).2)]
    have hall : ∀ r ∈ p :: ps, r ≠ [] := fun r hr => (mem_filterSplit (hp ▸ hr)).1
    rw [show List.filter (fun p => p ≠ []) ([] :: p :: ps)
        = List.filter (fun p => p ≠ []) (p :: ps) by simp]
    exact List.filter_eq_self.mpr (fun r hr => by simpa using hall r hr)

lemma normalize_chars_idem (cs : List Char) :
    removeDuplicateSlashesChars (removeDuplicateSlashesChars cs)
      = removeDuplicateSlashesChars cs := by
  conv_lhs =>
    rw [show removeDuplicateSlashesChars (removeDuplicateSlashesChars cs)
        = '/' :: joinSlash (List.filter (fun p => p ≠ [])
            (splitSlash (removeDuplicateSlashesChars cs))) from rfl]
  rw [filter_splitSlash_normalize]
  rfl

lemma segments_parse (s : String) :
    (Key.parse s).segments = List.filter (fun p => p ≠ []) (splitSlash s.data) := by
  show List.filter (fun p => p ≠ []) (splitSlash (removeDuplicateSlashesChars s.data))
      = List.filter (fun p => p ≠ []) (splitSlash s.data)
  exact filter_splitSlash_normalize s.data

/-!  Claim theorems. -/

/-- C6: key normalization is idempotent — for every raw string `s`,
`remove_duplicate_slashes (remove_duplicate_slashes s) =
remove_duplicate_slashes s` — and constructing a Key from any string
deterministically stores this normalized canonical form. -/
theorem normalize_idempotent_and_canonical (s : String) :
    Key.remove_duplicate_slashes (Key.remove_duplicate_slashes s)
      = Key.remove_duplicate_slashes s ∧
    (Key.parse s)._string = Key.remove_duplicate_slashes s := by
  refine ⟨?_, rfl⟩
  show String.mk (removeDuplicateSlashesChars (removeDuplicateSlashesChars s.data))
      = String.mk (removeDuplicateSlashesChars s.data)
  rw [normalize_chars_idem]

lemma segments_child (s n : String) (hn1 : n.data ≠ []) (hn2 : '/' ∉ n.data) :
    ((Key.parse s).child n).segments = (Key.parse s).segments ++ [n.data] := by
  rw [Key.child, segments_parse]
  have hdata : ((Key.parse s)._string ++ "/" ++ n).data
      = (Key.parse s)._string.data ++ '/' :: n.data := by
    show ((Key.parse s)._string.data ++ ['/']) ++ n.data
        = (Key.parse s)._string.data ++ '/' :: n.data
    simp
  rw [hdata, splitSlash_append, List.filter_append, splitSlash_slashFree n.data hn2]
  have hlast : List.filter (fun p => p ≠ []) [n.data] = [n.data] := by
    simp [hn1]
  rw [hlast]
  rfl

lemma parse_string_of_segments (s : String) :
    (Key.parse s)._string = String.mk ('/' :: joinSlash ((Key.parse s).segments)) := by
  rw [segments_parse]
  rfl

/-- C7: `child` and `parent` are inverse operations wherever `parent` is
defined — for every key and every child name, taking the child and then the
parent yields the original key. -/
theorem child_parent_inverse (s n : String) (hn1 : n.data ≠ []) (hn2 : '/' ∉ n.data)
    (hdef : ((Key.parse s).child n).parent ≠ Option.none) :
    ((Key.parse s).child n).parent = some (Key.parse s) := by
  have hseg := segments_child s n hn1 hn2
  rcases hps : (Key.parse s).segments with _ | ⟨p, ps⟩
  · exfalso
    apply hdef
    rw [Key.parent, hseg, hps]
    simp
  · rw [Key.parent, hseg, hps]
    rw [if_neg (by simp)]
    rw [List.dropLast_concat]
    have h2 := parse_string_of_segments s
    rw [hps] at h2
    rw [← h2]

/-- Witness for C7 at a concrete key and name. -/
theorem child_parent_inverse_witness :
    ((Key.parse "/A/B").child "c").parent = some (Key.parse "/A/B") :=
  child_parent_inverse "/A/B" "c" (by decide) (by decide) (by decide)

lemma isPrefixOfExistsAppend (l1 l2 : List Char) :
    List.isPrefixOf l1 l2 = true ↔ ∃ t, l2 = l1 ++ t := by
  induction l1 generalizing l2 with
  | nil => simp [List.isPrefixOf]
  | cons a as ih =>
    cases l2 with
    | nil => simp [List.isPrefixOf]
    | cons b bs =>
      simp only [List.isPrefixOf, Bool.and_eq_true, beq_iff_eq, ih, List.cons_append,
        List.cons.injEq]
      constructor
      · rintro ⟨rfl, t, rfl⟩
        exact ⟨t, rfl, rfl⟩
      · rintro ⟨t, rfl, rfl⟩
        exact ⟨rfl, t, rfl⟩

/-- C8: `is_ancestor_of` and `is_descendant_of` are mutually inverse
relations, `is_ancestor_of` holds exactly when the other key's normalized
string starts with this key's string plus a separator and the keys are
unequal, and no key is its own ancestor or descendant. -/
theorem ancestor_descendant_relations (a b : Key) :
    (Key.is_ancestor_of a b = true ↔ Key.is_descendant_of b a = true) ∧
    (Key.is_ancestor_of a b = true ↔
      ((∃ t, b._string.data = a._string.data ++ '/' :: t) ∧ a ≠ b)) ∧
    Key.is_ancestor_of a a = false ∧ Key.is_descendant_of a a = false := by
  refine ⟨Iff.rfl, ?_, ?_, ?_⟩
  · rw [Key.is_ancestor_of, Bool.and_eq_true, isPrefixOfExistsAppend, bne_iff_ne]
    constructor
    · rintro ⟨⟨t, ht⟩, hne⟩
      refine ⟨⟨t, ?_⟩, hne⟩
      rw [ht, List.append_assoc]
      rfl
    · rintro ⟨⟨t, ht⟩, hne⟩
      refine ⟨⟨t, ?_⟩, hne⟩
      rw [ht, List.append_assoc]
      rfl
  · simp [Key.is_ancestor_of]
  · simp [Key.is_descendant_of, Key.is_ancestor_of]

/-- C4: a `Stack` applies `dumps` in forward order and `loads` in reverse
order, and when every member serializer round-trips, the stack round-trips:
`Stack.loads (Stack.dumps v) = v`. -/
theorem stack_compose_and_roundtrip :
    (∀ (st : Stack) (s : Serializer) (v : PyVal),
      Stack.dumps (st ++ [s]) v = s.dumps (Stack.dumps st v)) ∧
    (∀ (st : Stack) (s : Serializer) (v : PyVal),
      Stack.loads (s :: st) v = s.loads (Stack.loads st v)) ∧
    (∀ (st : Stack) (v : PyVal),
      (∀ s ∈ st, ∀ x, s.loads (s.dumps x) = x) →
      Stack.loads st (Stack.dumps st v) = v) := by
  exact ⟨stack_dumps_append, fun st s v => stack_loads_cons s st v, stack_roundtrip_aux⟩

/-- A serializer wrapping any value into a one-entry dictionary; its `loads`
unwraps the dictionary. -/
def wrapValueSerializer : Serializer :=
  { dumps := fun v => PyVal.dict [("value", v)]
    loads := fun w =>
      match w with
      | PyVal.dict [(_, x)] => x
      | _ => PyVal.none }

/-- A second wrapping serializer with a different entry name. -/
def wrapItemSerializer : Serializer :=
  { dumps := fun v => PyVal.dict [("item", v)]
    loads := fun w =>
      match w with
      | PyVal.dict [(_, x)] => x
      | _ => PyVal.none }

/-- Witness for C4 at a concrete two-serializer stack and value. -/
theorem stack_compose_and_roundtrip_witness :
    Stack.loads [wrapValueSerializer, wrapItemSerializer]
      (Stack.dumps [wrapValueSerializer, wrapItemSerializer] (PyVal.int 3))
      = PyVal.int 3 := by
  refine stack_compose_and_roundtrip.2.2 [wrapValueSerializer, wrapItemSerializer]
    (PyVal.int 3) ?_
  intro s hs x
  rcases List.mem_cons.mp hs with rfl | hs2
  · rfl
  · rcases List.mem_cons.mp hs2 with rfl | hs3
    · rfl
    · exact absurd hs3 (List.not_mem_nil s)

/-- C3: `query` forwards the query object to the child and wraps the child
cursor's result sequence in the deserializing generator: consuming the first
`m` elements yields `serializer.loads` of the first `m` child results while
invoking `loads` exactly `min m N` times, hence at most `m` times. -/
theorem query_lazy_deserialization {Q M : Type} (S : SerializerShimDatastore Q M)
    (q : Q) (xs : List PyVal) (m : Nat)
    (h : (S.child_datastore.queryOp q)._iterable = Iterable.list xs) :
    Iterable.consume m (S.query q)._iterable
      = (List.map S.serializer.loads (List.take m xs), min m xs.length) ∧
    min m xs.length ≤ m := by
  constructor
  · show Iterable.consume m
        (deserialized_gen S.serializer (S.child_datastore.queryOp q)._iterable) = _
    rw [h]
    exact consume_gen_list S.serializer.loads xs m
  · exact Nat.min_le_left m xs.length

/-- A concrete child datastore returning three stored items for any query. -/
def sampleChild : ChildDatastore Unit Unit :=
  { getOp := fun _ => PyVal.none
    queryOp := fun _ =>
      { _iterable := Iterable.list [PyVal.int 0, PyVal.int 1, PyVal.int 2]
        query := ()
        meta := () } }

/-- A concrete shim over `sampleChild`. -/
def sampleShim : SerializerShimDatastore Unit Unit :=
  { child_datastore := sampleChild, serializer := wrapValueSerializer }

/-- Witness for C3: consuming one of three stored elements performs exactly
one deserialization. -/
theorem query_lazy_deserialization_witness :
    Iterable.consume 1 (SerializerShimDatastore.query sampleShim ())._iterable
      = (List.map wrapValueSerializer.loads
          (List.take 1 [PyVal.int 0, PyVal.int 1, PyVal.int 2]), min 1 3) ∧
    min 1 3 ≤ 1 :=
  query_lazy_deserialization sampleShim () [PyVal.int 0, PyVal.int 1, PyVal.int 2] 1 rfl

/-- C9: the shim's `query` preserves everything about the child's cursor
except its result sequence: the query object and metadata pass through
unchanged, and only `_iterable` is replaced by the deserializing
generator. -/
theorem query_preserves_cursor_metadata {Q M : Type}
    (S : SerializerShimDatastore Q M) (q : Q) :
    (S.query q).query = (S.child_datastore.queryOp q).query ∧
    (S.query q).meta = (S.child_datastore.queryOp q).meta ∧
    (S.query q)._iterable
      = deserialized_gen S.serializer (S.child_datastore.queryOp q)._iterable :=
  ⟨rfl, rfl, rfl⟩

lemma shim_put_get_aux {Q M : Type} (S : SerializerShimDatastore Q M)
    (k : Key) (v : PyVal) (hv : v ≠ PyVal.none)
    (hs : (S.serializer.dumps v).isStr = true)
    (hrt : S.serializer.loads (S.serializer.dumps v) = v) :
    (S.put k v).child_datastore.getOp k = S.serializer.dumps v ∧
    (S.put k v).get k = v := by
  have hchild : (S.put k v).child_datastore.getOp k = S.serializer.dumps v := by
    simp [SerializerShimDatastore.put, hv]
  refine ⟨hchild, ?_⟩
  have hne : S.serializer.dumps v ≠ PyVal.none := by
    intro h
    rw [h] at hs
    simp [PyVal.isStr] at hs
  show (if (S.put k v).child_datastore.getOp k ≠ PyVal.none
      then (S.put k v).serializer.loads ((S.put k v).child_datastore.getOp k)
      else PyVal.none) = v
  rw [hchild, if_pos hne]
  exact hrt

/-- C1: after `S.put(k, v)` with a non-sentinel value `v` and a serializer
that emits strings and round-trips `v`, the child holds the serialized form
`serializer.dumps(v)` and `S.get(k)` returns `v`. -/
theorem put_serializes_and_get_roundtrips {Q M : Type}
    (S : SerializerShimDatastore Q M) (k : Key) (v : PyVal)
    (hv : v ≠ PyVal.none)
    (hs : (S.serializer.dumps v).isStr = true)
    (hrt : S.serializer.loads (S.serializer.dumps v) = v) :
    (S.put k v).child_datastore.getOp k = S.serializer.dumps v ∧
    (S.put k v).get k = v :=
  shim_put_get_aux S k v hv hs hrt

/-- A serializer whose `dumps` renders `5` as the string `"5"` and whose
`loads` parses it back. -/
def intFiveSerializer : Serializer :=
  { loads := fun _ => PyVal.int 5
    dumps := fun _ => PyVal.str "5" }

/-- A child datastore with nothing stored. -/
def emptyChild : ChildDatastore Unit Unit :=
  { getOp := fun _ => PyVal.none
    queryOp := fun _ => { _iterable := Iterable.list [], query := (), meta := () } }

/-- A concrete shim over the empty child with `intFiveSerializer`. -/
def fiveShim : SerializerShimDatastore Unit Unit :=
  { child_datastore := emptyChild, serializer := intFiveSerializer }

/-- Witness for C1 at a concrete shim, key and value. -/
theorem put_serializes_and_get_roundtrips_witness :
    (fiveShim.put (Key.parse "/a") (PyVal.int 5)).child_datastore.getOp (Key.parse "/a")
      = intFiveSerializer.dumps (PyVal.int 5) ∧
    (fiveShim.put (Key.parse "/a") (PyVal.int 5)).get (Key.parse "/a") = PyVal.int 5 :=
  put_serializes_and_get_roundtrips fiveShim (Key.parse "/a") (PyVal.int 5)
    (by decide) (by decide) (by decide)

/-- C5: `get` reports the explicit "not found" result (`None`) when the
child reports absence, and a non-sentinel value stored through `put` with a
round-tripping, string-emitting serializer reads back as itself, never as
the "not found" result. -/
theorem get_distinguishes_absence {Q M : Type}
    (S : SerializerShimDatastore Q M) (k : Key) :
    (S.child_datastore.getOp k = PyVal.none → S.get k = PyVal.none) ∧
    (∀ v, v ≠ PyVal.none → (S.serializer.dumps v).isStr = true →
      S.serializer.loads (S.serializer.dumps v) = v →
      (S.put k v).get k = v ∧ (S.put k v).get k ≠ PyVal.none) := by
  constructor
  · intro h
    simp [SerializerShimDatastore.get, h]
  · intro v hv hs hrt
    have h := shim_put_get_aux S k v hv hs hrt
    refine ⟨h.2, ?_⟩
    rw [h.2]
    exact hv

/-- Witness for C5 at a concrete shim, key and value. -/
theorem get_distinguishes_absence_witness :
    (fiveShim.get (Key.parse "/a") = PyVal.none) ∧
    (fiveShim.put (Key.parse "/a") (PyVal.int 5)).get (Key.parse "/a") = PyVal.int 5 ∧
    (fiveShim.put (Key.parse "/a") (PyVal.int 5)).get (Key.parse "/a") ≠ PyVal.none := by
  have h := get_distinguishes_absence fiveShim (Key.parse "/a")
  have h2 := h.2 (PyVal.int 5) (by decide) (by decide) (by decide)
  exact ⟨h.1 rfl, h2.1, h2.2⟩

/-- C2: construction with a serializer that fails to round-trip the
self-test value `{'value': repr(self)}` fails with the construction-time
serializer-configuration error, and a successful construction stores the
child and serializer untouched — no data is written to the child either
way. -/
theorem init_selftest_fails_before_write {Q M : Type} (d : ChildDatastore Q M)
    (J : Serializer) (r : String) :
    (J.loads (J.dumps (selfTestValue r)) ≠ selfTestValue r →
      SerializerShimDatastore.init d J r = Except.error serializerErrorMsg) ∧
    (∀ S, SerializerShimDatastore.init d J r = Except.ok S →
      S.child_datastore = d ∧ S.serializer = J) := by
  constructor
  · intro h
    simp [SerializerShimDatastore.init, h]
  · intro S h
    by_cases hc : J.loads (J.dumps (selfTestValue r)) = selfTestValue r
    · simp [SerializerShimDatastore.init, hc] at h
      rw [← h]
      exact ⟨rfl, rfl⟩
    · simp [SerializerShimDatastore.init, hc] at h

/-- Witness for C2: the string-identity serializer cannot round-trip the
dictionary self-test value, so construction fails. -/
theorem init_selftest_fails_before_write_witness :
    SerializerShimDatastore.init emptyChild stringIdentitySerializer "x"
      = Except.error serializerErrorMsg :=
  (init_selftest_fails_before_write emptyChild stringIdentitySerializer "x").1 (by decide)

/-- C10: the constructor's self-test value is the one-entry dictionary
`{'value': repr(self)}`, construction succeeds exactly when the serializer
round-trips that dictionary, and a serializer that round-trips every string
value is nevertheless rejected because it cannot round-trip a dictionary. -/
theorem init_sentinel_is_value_dict {Q M : Type} (d : ChildDatastore Q M)
    (J : Serializer) (r : String) :
    (selfTestValue r = PyVal.dict [("value", PyVal.str r)]) ∧
    (exceptOk (SerializerShimDatastore.init d J r) = true ↔
      J.loads (J.dumps (PyVal.dict [("value", PyVal.str r)]))
        = PyVal.dict [("value", PyVal.str r)]) ∧
    (∀ s : String, stringIdentitySerializer.loads
        (stringIdentitySerializer.dumps (PyVal.str s)) = PyVal.str s) ∧
    exceptOk (SerializerShimDatastore.init d stringIdentitySerializer r) = false := by
  refine ⟨rfl, ?_, fun s => rfl, ?_⟩
  · by_cases hc : J.loads (J.dumps (selfTestValue r)) = selfTestValue r
    · simp [SerializerShimDatastore.init, hc, exceptOk]
      exact hc
    · simp [SerializerShimDatastore.init, hc, exceptOk]
      exact hc
  · have hc : stringIdentitySerializer.loads
        (stringIdentitySerializer.dumps (selfTestValue r)) ≠ selfTestValue r := by
      simp [stringIdentitySerializer, selfTestValue]
    simp [SerializerShimDatastore.init, hc, exceptOk]

end Datastore
